import Mathlib

/-!
Verification of the Animara assistant-orchestration proxy.

Strings are modelled as `List Char` (Python `str`; `len` counts code points,
as does `List.length` here).  Python integers are `Int` where they can go
negative and `Nat` where the source only ever produces non-negative values.
External collaborators (the vector DB, the embedding model, the BM25 library,
tool handlers, the LLM endpoints) are modelled as explicit inputs to the
functions that consult them.  Every definition is translated from the
repository source; the file/line of origin is recorded on each one.
-/

/-- Strings as lists of characters. -/
abbrev Str := List Char

/-- Python `str.strip` / `\s` whitespace set restricted to the ASCII
whitespace characters that can occur in this code base. -/
def isWsB (c : Char) : Bool :=
  c == ' ' || c == '\t' || c == '\n' || c == '\r' ||
  c == Char.ofNat 11 || c == Char.ofNat 12

/-- Python `str.lower`, restricted to ASCII letters and the Russian
Cyrillic letters occurring in the repository's phrase tables (А..Я and Ё);
on those alphabets it agrees with Python's `str.lower`. -/
def lowerChar (c : Char) : Char :=
  if 'A' ≤ c && c ≤ 'Z' then Char.ofNat (c.toNat + 32)
  else if Char.ofNat 0x410 ≤ c && c ≤ Char.ofNat 0x42F then Char.ofNat (c.toNat + 32)
  else if c = Char.ofNat 0x401 then Char.ofNat 0x451
  else c

/-- Python `str.lower` on a whole string. -/
def lowerStr (s : Str) : Str := s.map lowerChar

/-- Python `str.strip()`: drop whitespace from both ends. -/
def trim (s : Str) : Str :=
  ((s.dropWhile isWsB).reverse.dropWhile isWsB).reverse

/-- Decides whether `p` is a prefix of `s` (Python `str.startswith`). -/
def isPrefixL : Str → Str → Bool
  | [], _ => true
  | _ :: _, [] => false
  | a :: as, b :: bs => a == b && isPrefixL as bs

/-- Decides whether `pat` occurs as a contiguous substring of `s`
(Python `pat in s`). -/
def hasSub (pat : Str) : Str → Bool
  | [] => pat.isEmpty
  | c :: rest => isPrefixL pat (c :: rest) || hasSub pat rest

/-- Index of the leftmost occurrence of `pat` in `s` (Python `re.search`
on a literal pattern / `str.find`). -/
def findSub (pat : Str) : Str → Option Nat
  | [] => if pat.isEmpty then some 0 else none
  | c :: rest =>
    if isPrefixL pat (c :: rest) then some 0
    else (findSub pat rest).map (· + 1)

/-- Python `str.split()` (split on whitespace runs, no empty tokens);
`acc` is the current token accumulated in reverse. -/
def splitWsAux : Str → Str → List Str
  | [], acc => if acc.isEmpty then [] else [acc.reverse]
  | c :: rest, acc =>
    if isWsB c then
      if acc.isEmpty then splitWsAux rest [] else acc.reverse :: splitWsAux rest []
    else splitWsAux rest (c :: acc)

/-- Python `str.split()`. -/
def splitWs (s : Str) : List Str := splitWsAux s []

/-- Python regex `\w` word character, restricted to ASCII alphanumerics,
underscore and the Cyrillic letters used by the repository's keyword
tables (а..я, А..Я, ё, Ё). -/
def isWordChar (c : Char) : Bool :=
  c.isAlphanum || c == '_' ||
  (Char.ofNat 0x410 ≤ c && c ≤ Char.ofNat 0x44F) ||
  c == Char.ofNat 0x401 || c == Char.ofNat 0x451

/-- Python `re.findall(r'\w+', s)`: maximal runs of word characters. -/
def findWordsAux : Str → Str → List Str
  | [], acc => if acc.isEmpty then [] else [acc.reverse]
  | c :: rest, acc =>
    if isWordChar c then findWordsAux rest (c :: acc)
    else if acc.isEmpty then findWordsAux rest [] else acc.reverse :: findWordsAux rest []

/-- Python `re.findall(r'\w+', s)`. -/
def findWords (s : Str) : List Str := findWordsAux s []

-- ═════════════════════════════════════════════════════════════════
-- v12 proxy (src/animara_rag_proxy_v12.py)
-- ═════════════════════════════════════════════════════════════════

namespace V12

/-- src/animara_rag_proxy_v12.py:106-110 `estimate_tokens`:
`0` for empty text, `max(1, len(text) // 3)` otherwise
(`//` is Python floor division). -/
def estimate_tokens (s : Str) : Nat :=
  if s.length = 0 then 0 else max 1 (s.length / 3)

/-- A chat message as a role/content dict (src/animara_rag_proxy_v12.py). -/
structure PMsg where
  role : Str
  content : Str
deriving DecidableEq

/-- src/animara_rag_proxy_v12.py:113-120 `estimate_messages_tokens`:
per-message content estimate plus 4 overhead per message. -/
def estimate_messages_tokens (msgs : List PMsg) : Nat :=
  (msgs.map (fun m => estimate_tokens m.content + 4)).sum

/-- The RAG section marker (src/animara_rag_proxy_v12.py:148). -/
def ragMarker : Str := "## Релевантная информация из памяти:".toList

/-- The literal pattern of `re.search(r'\n## ', ...)`
(src/animara_rag_proxy_v12.py:152). -/
def sectMark : Str := "\n## ".toList

/-- Marker inserted when the RAG block is truncated in place
(src/animara_rag_proxy_v12.py:162). -/
def ragTrimMark : Str := "\n[...обрезано]\n".toList

/-- Replacement inserted when the RAG block is removed entirely
(src/animara_rag_proxy_v12.py:166). -/
def ragCutMark : Str := "\nОбрезано.\n".toList

/-- Marker appended when the system prompt tail is truncated
(src/animara_rag_proxy_v12.py:178). -/
def sysTrimMark : Str := "\n[...обрезано]".toList

/-- The stage-2 history-dropping loop of `truncate_context_if_needed`
(src/animara_rag_proxy_v12.py:170-173), acting on the tail of the message
list: `while overflow > 0 and len(messages) > 2: removed = messages.pop(1);
overflow -= estimate_tokens(removed['content'])`.  The head (`messages[0]`)
is kept by the caller, so `len(messages) > 2` means the tail has at least
two elements. -/
def stage2go : Int → List PMsg → Int × List PMsg
  | ov, [] => (ov, [])
  | ov, [m] => (ov, [m])
  | ov, m1 :: m2 :: rest =>
    if 0 < ov then stage2go (ov - estimate_tokens m1.content) (m2 :: rest)
    else (ov, m1 :: m2 :: rest)

/-- Stage 2 of `truncate_context_if_needed` on the full message list. -/
def stage2 (ov : Int) (msgs : List PMsg) : Int × List PMsg :=
  match msgs with
  | [] => (ov, [])
  | m0 :: t =>
    let r := stage2go ov t
    (r.1, m0 :: r.2)

/-- Stages 2 and 3 of `truncate_context_if_needed`
(src/animara_rag_proxy_v12.py:169-180): drop oldest non-head messages,
then truncate the system-prompt tail to
`max(500, len(system_prompt) - overflow * 3)` characters plus a marker. -/
def stage23 (ov : Int) (sys : Str) (msgs : List PMsg) : Str × List PMsg :=
  let r := stage2 ov msgs
  if 0 < r.1 then
    let tlen := (max 500 ((sys.length : Int) - r.1 * 3)).toNat
    (sys.take tlen ++ sysTrimMark, r.2)
  else (sys, r.2)

/-- src/animara_rag_proxy_v12.py:134-180 `truncate_context_if_needed`.
Priority: RAG block, then history, then the system prompt.  Stage 1 splits
the system prompt once at `ragMarker` (`split(rag_marker, 1)`), locates the
next `'\n## '` section in `parts[1][1:]`, and either truncates the RAG block
to `max(100, (rag_tokens - overflow) * 3)` characters and returns at once,
or removes it entirely and continues with stages 2-3. -/
def truncate_context_if_needed (sys0 : Str) (msgs0 : List PMsg)
    (context_window : Nat) (min_response_tokens : Nat) : Str × List PMsg :=
  let total : Int := estimate_tokens sys0 + estimate_messages_tokens msgs0
  let budget : Int := (context_window : Int) - min_response_tokens
  if total ≤ budget then (sys0, msgs0)
  else
    let ov0 := total - budget
    match findSub ragMarker sys0 with
    | some i =>
      let pre := sys0.take i
      let post := sys0.drop (i + ragMarker.length)
      let pr : Str × Str :=
        match findSub sectMark (post.drop 1) with
        | some j => (post.take (j + 1), post.drop (j + 1))
        | none => (post, [])
      let rt : Int := estimate_tokens pr.1
      if ov0 < rt then
        let target := max 100 ((rt - ov0) * 3)
        (pre ++ ragMarker ++ pr.1.take target.toNat ++ ragTrimMark ++ pr.2, msgs0)
      else
        stage23 (ov0 - rt) (pre ++ ragMarker ++ ragCutMark ++ pr.2) msgs0
    | none => stage23 ov0 sys0 msgs0

/-- The literal `'<think>'`. -/
def thinkOpen : Str := "<think>".toList

/-- The literal `'</think>'`. -/
def thinkClose : Str := "</think>".toList

/-- One match of `re.sub(r'<think>.*?</think>\s*', '', text, DOTALL)`:
find the leftmost `<think>`, the first `</think>` after it (non-greedy
`.*?`), and consume trailing whitespace (greedy `\s*`); return the text
before the match and the text after it, or `none` when no match exists. -/
def findThinkBlock (s : Str) : Option (Str × Str) :=
  match findSub thinkOpen s with
  | none => none
  | some i =>
    let after := s.drop (i + thinkOpen.length)
    match findSub thinkClose after with
    | none => none
    | some j => some (s.take i, (after.drop (j + thinkClose.length)).dropWhile isWsB)

/-- Repeated (fuelled) application of `findThinkBlock`, as `re.sub` replaces
every non-overlapping match from left to right. -/
def subThink : Nat → Str → Str
  | 0, s => s
  | fuel + 1, s =>
    match findThinkBlock s with
    | none => s
    | some pr => pr.1 ++ subThink fuel pr.2

/-- `re.sub(r'<think>.*?</think>\s*', '', s, DOTALL)`; fuel `s.length`
suffices since every match consumes at least one character. -/
def subThinkAll (s : Str) : Str := subThink s.length s

/-- `re.sub(r'<think>.*', '', s, DOTALL)`: a match runs to the end of the
string, so only the leftmost `<think>` matters. -/
def subThinkOpen (s : Str) : Str :=
  match findSub thinkOpen s with
  | some i => s.take i
  | none => s

/-- `re.search(r'<think>(.*?)</think>', s, DOTALL).group(1)`. -/
def searchThink (s : Str) : Option Str :=
  match findSub thinkOpen s with
  | none => none
  | some i =>
    let after := s.drop (i + thinkOpen.length)
    match findSub thinkClose after with
    | none => none
    | some j => some (after.take j)

/-- Python `s.replace(pat, '')` for a non-empty `pat` (fuelled). -/
def subAll (pat : Str) : Nat → Str → Str
  | 0, s => s
  | fuel + 1, s =>
    match findSub pat s with
    | none => s
    | some i => s.take i ++ subAll pat fuel (s.drop (i + pat.length))

/-- src/animara_rag_proxy_v12.py:183-202 `clean_think_blocks`: strips
`<think>` blocks; when nothing remains, falls back to the contents of the
closed (or unclosed) think block. -/
def clean_think_blocks (s : Str) : Str :=
  if s.isEmpty then []
  else if !(hasSub thinkOpen (lowerStr s)) then trim s
  else
    let clean0 := trim (subThinkAll s)
    let clean := trim (subThinkOpen clean0)
    if !clean.isEmpty then clean
    else
      match searchThink s with
      | some inner => trim inner
      | none =>
        match findSub thinkOpen s with
        | some i => trim (subAll thinkClose s.length (s.drop (i + thinkOpen.length)))
        | none => []

end V12

/-- One hit returned by the vector DB: stored content plus the reported
distance (the DB and embedder are external collaborators, so their
responses are inputs to the search functions). -/
structure VHit where
  content : Str
  distance : Rat
deriving DecidableEq

/-- Stable insertion (descending by `key`): the new element goes after all
existing elements with a greater-or-equal key, matching Python's stable
`sorted(..., reverse=True)`. -/
def insertDesc {α : Type} (key : α → Rat) (x : α) : List α → List α
  | [] => [x]
  | y :: ys => if key x ≤ key y then y :: insertDesc key x ys else x :: y :: ys

/-- Stable sort, descending by `key` (Python `sorted(l, key=k, reverse=True)`). -/
def sortDesc {α : Type} (key : α → Rat) (l : List α) : List α :=
  l.foldl (fun acc x => insertDesc key x acc) []

namespace V12

/-- CONFIG values of src/animara_rag_proxy_v12.py:84-86 (the float weights
0.7 / 0.3 are modelled as exact rationals; no claim depends on float
rounding of the scores). -/
def rag_top_k : Nat := 5

/-- CONFIG vector_weight = 0.7. -/
def vector_weight : Rat := 7 / 10

/-- CONFIG bm25_weight = 0.3. -/
def bm25_weight : Rat := 3 / 10

/-- One entry of the `results` list inside `HybridSearch.search`. -/
structure SearchResult where
  content : Str
  score : Rat
  source : Str
deriving DecidableEq

/-- Deduplication loop of `HybridSearch.search`
(src/animara_rag_proxy_v12.py:329-335): the md5 content hash is modelled
as deduplication by exact content. -/
def dedupByContent : List SearchResult → List Str → List SearchResult
  | [], _ => []
  | r :: rest, seen =>
    if seen.contains r.content then dedupByContent rest seen
    else r :: dedupByContent rest (r.content :: seen)

/-- Python `'\n'.join`. -/
def joinNL : List Str → Str
  | [] => []
  | [x] => x
  | x :: y :: rest => x ++ '\n' :: joinNL (y :: rest)

/-- src/animara_rag_proxy_v12.py:292-339 `HybridSearch.search`.  The
embedder/Milvus response is the input `vecHits`; the BM25 index state is
the pair `bm25_docs` (documents) and `bm25_scores` (the library's
`get_scores` output for this query, aligned with `bm25_docs`); `self.bm25`
is non-None exactly when the build found documents, i.e. when `bm25_docs`
is non-empty. -/
def search (query person_id : Str) (vecHits : List VHit)
    (bm25_docs : List Str) (bm25_scores : List Rat) : Str :=
  if query.length < 3 then []
  else
    let vres : List SearchResult :=
      vecHits.map (fun h => ⟨h.content, h.distance * vector_weight, "vector".toList⟩)
    let bres : List SearchResult :=
      if person_id == "owner_sergey".toList && !bm25_docs.isEmpty then
        let top := (sortDesc (fun i => bm25_scores.getD i 0)
          (List.range bm25_scores.length)).take rag_top_k
        (top.filter (fun i => 0 < bm25_scores.getD i 0)).map
          (fun i => ⟨bm25_docs.getD i [], bm25_scores.getD i 0 * bm25_weight, "bm25".toList⟩)
      else []
    let uniq := dedupByContent (sortDesc (fun r => r.score) (vres ++ bres)) []
    if uniq.isEmpty then []
    else joinNL ((uniq.take rag_top_k).map (fun r => "• ".toList ++ r.content.take 300))

/-- CONFIG session_max_messages = 20 (src/animara_rag_proxy_v12.py:81). -/
def session_max_messages : Nat := 20

/-- The v12 `Session` dataclass (src/animara_rag_proxy_v12.py:346-355);
ids and wall-clock fields are external and omitted. -/
structure Session where
  messages : List PMsg
  total_tokens : Int
  god_mode : Bool
  flush_done : Bool
deriving DecidableEq

/-- Append to a `deque(maxlen=maxlen)`: when full, the oldest element is
silently discarded. -/
def dequeAppend (maxlen : Nat) (l : List PMsg) (m : PMsg) : List PMsg :=
  if maxlen ≤ l.length then l.tail ++ [m] else l ++ [m]

/-- src/animara_rag_proxy_v12.py:380-383 `SessionManager.add_message`:
appends to the bounded deque and adds `len(content) // 3` to the counter
(nothing is subtracted when the deque evicts its oldest entry). -/
def add_message (s : Session) (role content : Str) : Session :=
  { s with
    messages := dequeAppend session_max_messages s.messages ⟨role, content⟩,
    total_tokens := s.total_tokens + ((content.length / 3 : Nat) : Int) }

/-- God-mode activation phrases (src/animara_rag_proxy_v12.py:587). -/
def god_phrases : List Str :=
  ["/god", "god mode", "режим бога", "включи режим бога", "включи god mode"].map
    String.toList

/-- God-mode deactivation phrases (src/animara_rag_proxy_v12.py:588). -/
def local_phrases : List Str :=
  ["/local", "local mode", "локальный режим", "выключи режим бога",
   "обычный режим", "включи локальный"].map String.toList

/-- Canned activation reply (src/animara_rag_proxy_v12.py:591). -/
def god_on_reply : Str := "🔮 God Mode включён. Используется OpenAI.".toList

/-- Canned deactivation reply (src/animara_rag_proxy_v12.py:594). -/
def local_on_reply : Str := "🏠 Local Mode включён. Используется Qwen3.".toList

/-- The god-mode toggle prefix of `AnimaraProcessor.process`
(src/animara_rag_proxy_v12.py:585-594): lowercase and strip the input,
test activation phrases first (exact membership or substring), then
deactivation phrases; `some (reply, s')` returns the canned reply before
any message is stored or any model is called, `none` falls through to the
normal pipeline. -/
def processToggle (user_input : Str) (s : Session) : Option (Str × Session) :=
  let il := lowerStr (trim user_input)
  if god_phrases.contains il || god_phrases.any (fun p => hasSub p il) then
    some (god_on_reply, { s with god_mode := true })
  else if local_phrases.contains il || local_phrases.any (fun p => hasSub p il) then
    some (local_on_reply, { s with god_mode := false })
  else none

end V12

-- ═════════════════════════════════════════════════════════════════
-- core proxy (src/core/rag_proxy.py)
-- ═════════════════════════════════════════════════════════════════

namespace Core

/-- src/core/rag_proxy.py:803-806 `count_tokens`: `len(text) // 3`
(0 for empty text; note there is no `max(1, ...)` here). -/
def count_tokens (s : Str) : Nat := s.length / 3

/-- CONFIG owner_person_id (src/core/rag_proxy.py:76). -/
def owner_person_id : Str := "owner_sergey".toList

/-- CONFIG vector_weight = 0.7 (src/core/rag_proxy.py:86), as an exact
rational. -/
def vector_weight : Rat := 7 / 10

/-- CONFIG bm25_weight = 0.3 (src/core/rag_proxy.py:87). -/
def bm25_weight : Rat := 3 / 10

/-- The `results` dict of `hybrid_search`, as an insertion-ordered
association list: `results[content] = results.get(content, 0) + d`. -/
def addScore : List (Str × Rat) → Str → Rat → List (Str × Rat)
  | [], c, d => [(c, d)]
  | (k, v) :: rest, c, d =>
    if k == c then (k, v + d) :: rest else (k, v) :: addScore rest c d

/-- Distance-to-similarity conversion of `hybrid_search`
(src/core/rag_proxy.py:965): `1 - distance if distance < 1 else 0`. -/
def distScore (d : Rat) : Rat := if d < 1 then 1 - d else 0

/-- Python `max` over a non-empty list of rationals. -/
def listMax (l : List Rat) : Rat := l.foldl max (l.headD 0)

/-- src/core/rag_proxy.py:950-995 `hybrid_search`.  The Milvus responses
for the two collections are the inputs `memHits` and `convHits` (the
caller-id and `is_active` filters are applied by the DB); `bm25Results`
is what `bm25_search(query, top_k * 2)` would return, as (content, score)
pairs (the (collection, id) provenance of the third tuple component is not
used by this function).  BM25 is consulted only for the owner; scores are
max-normalised and weighted, the fused dict is sorted by score descending
(stable) and the top-k contents are returned. -/
def hybrid_search (query person_id : Str) (top_k : Nat)
    (memHits convHits : List VHit) (bm25Results : List (Str × Rat)) : List Str :=
  let r1 := memHits.foldl
    (fun acc h => if h.content.isEmpty then acc
      else addScore acc h.content (distScore h.distance * vector_weight)) []
  let r2 := convHits.foldl
    (fun acc h => if h.content.isEmpty then acc
      else addScore acc h.content (distScore h.distance * vector_weight * (1 / 2))) r1
  let bres := if person_id == owner_person_id then bm25Results else []
  let r3 :=
    if bres.isEmpty then r2
    else
      let maxB := listMax (bres.map (fun p => p.2))
      bres.foldl
        (fun acc p =>
          addScore acc p.1 ((if 0 < maxB then p.2 / maxB else 0) * bm25_weight)) r2
  ((sortDesc (fun p => p.2) r3).take top_k).map (fun p => p.1)

/-- CONFIG session_max_messages = 20 (src/core/rag_proxy.py:82). -/
def session_max_messages : Nat := 20

/-- CONFIG prune_after_messages = 3 (src/core/rag_proxy.py:96). -/
def prune_after_messages : Nat := 3

/-- CONFIG prune_tool_max_chars = 200 (src/core/rag_proxy.py:97). -/
def prune_tool_max_chars : Nat := 200

/-- The truncation marker of `_prune_old_tool_results`
(src/core/rag_proxy.py:1077), 12 characters. -/
def pruned_marker : Str := "... [pruned]".toList

/-- A stored session message (src/core/rag_proxy.py:1042-1048); the `ts`
wall-clock field is external and omitted. -/
structure CMsg where
  role : Str
  content : Str
  tokens : Nat
  is_tool : Bool
deriving DecidableEq

/-- The core `Session`'s message list and token counter
(src/core/rag_proxy.py:1026-1038); identity and wall-clock fields are
external and omitted.  `total_tokens` is a Python int, hence `Int`. -/
structure Session where
  messages : List CMsg
  total_tokens : Int
deriving DecidableEq

/-- The literal role string compared against in the prune scan. -/
def assistantRole : Str := "assistant".toList

/-- Position of the `k`-th assistant message (k counted from 1) in a list
scanned front to back; applied to the reversed message list this is the
scan of src/core/rag_proxy.py:1062-1067. -/
def kthAssistantPos : List CMsg → Nat → Option Nat
  | [], _ => none
  | m :: rest, k =>
    if m.role == assistantRole then
      if k ≤ 1 then some 0 else (kthAssistantPos rest (k - 1)).map (· + 1)
    else (kthAssistantPos rest k).map (· + 1)

/-- `prune_before_idx` of `_prune_old_tool_results`, clamped to 0: the
function returns untouched when the index is `-1` (fewer than `n`
assistants) or `0`, and otherwise prunes exactly the messages at indices
`< prune_before_idx`. -/
def pruneCut (msgs : List CMsg) (n : Nat) : Nat :=
  match kthAssistantPos msgs.reverse n with
  | some p => msgs.length - 1 - p
  | none => 0

/-- Content truncation of one over-long tool result
(src/core/rag_proxy.py:1077): `content[:cap] + "... [pruned]"`. -/
def pruneStr (c : Str) : Str := c.take prune_tool_max_chars ++ pruned_marker

/-- Per-message pruning step (src/core/rag_proxy.py:1073-1079): only tool
results whose content exceeds the cap are rewritten, and their `tokens`
field is recomputed. -/
def pruneMsg (m : CMsg) : CMsg :=
  if m.is_tool && prune_tool_max_chars < m.content.length then
    { m with content := pruneStr m.content, tokens := count_tokens (pruneStr m.content) }
  else m

/-- src/core/rag_proxy.py:1058-1082 `Session._prune_old_tool_results`:
prune every message before the cut, sum the per-message token deltas
(`old_tokens - msg["tokens"]`, a Python int that can be negative), and
subtract the sum from the counter only when it is positive. -/
def prune_old_tool_results (s : Session) : Session :=
  let cut := pruneCut s.messages prune_after_messages
  let front := s.messages.take cut
  let newFront := front.map pruneMsg
  let saved : Int :=
    ((front.zip newFront).map (fun p => (p.1.tokens : Int) - (p.2.tokens : Int))).sum
  { messages := newFront ++ s.messages.drop cut,
    total_tokens := if 0 < saved then s.total_tokens - saved else s.total_tokens }

/-- src/core/rag_proxy.py:1040-1056 `Session.add_message`: append the new
message with its token estimate, prune old tool results, then evict one
message from the front (decrementing the counter) when the cap is
exceeded. -/
def add_message (s : Session) (role content : Str) (is_tool : Bool) : Session :=
  let tokens := count_tokens content
  let s1 : Session :=
    { messages := s.messages ++ [⟨role, content, tokens, is_tool⟩],
      total_tokens := s.total_tokens + tokens }
  let s2 := prune_old_tool_results s1
  if session_max_messages < s2.messages.length then
    match s2.messages with
    | [] => s2
    | m :: rest => { messages := rest, total_tokens := s2.total_tokens - m.tokens }
  else s2

/-- src/core/rag_proxy.py:1109-1112 `Session.compact`: keep the last 3
messages and recompute the counter from their stored token counts. -/
def compact (s : Session) : Session :=
  let keep := s.messages.drop (s.messages.length - 3)
  { messages := keep,
    total_tokens := (keep.map (fun m => (m.tokens : Int))).sum }

/-- Outcome of one handler invocation inside the `asyncio.wait_for`
wrapper: normal result, timeout, or a raised exception (with its text). -/
inductive ToolOutcome where
  | ok (result : Str)
  | timedOut
  | raised (msg : Str)
deriving DecidableEq

/-- A registered tool: its name and the outcome its handler produces for
given params (handlers are external collaborators). -/
structure Tool where
  name : Str
  run : List (Str × Str) → ToolOutcome

/-- src/core/rag_proxy.py:745-760 `ToolsManager.execute_tool`: unknown
names, timeouts and handler exceptions each yield a short human-readable
message instead of propagating; a successful handler's result is returned
as is.  The registry dict is modelled as a list looked up by name. -/
def execute_tool (tools : List Tool) (name : Str) (params : List (Str × Str)) : Str :=
  match tools.find? (fun t => t.name == name) with
  | none => "❌ Неизвестный инструмент: ".toList ++ name
  | some t =>
    match t.run params with
    | .ok r => r
    | .timedOut => "❌ Таймаут инструмента ".toList ++ name
    | .raised e => "❌ Ошибка ".toList ++ name ++ ": ".toList ++ e

end Core

-- ═════════════════════════════════════════════════════════════════
-- SmartRouter (src/animara_v12_2_upgrade.py)
-- ═════════════════════════════════════════════════════════════════

namespace Router

/-- The `RouteType` literal of src/animara_v12_2_upgrade.py:49. -/
inductive Route where
  | direct
  | agent
deriving DecidableEq

/-- src/animara_v12_2_upgrade.py:52-58 `RouteResult`; the free-text
`reason` log field is omitted.  `needed_tools` is the Python set, as a
duplicate-free list in first-insertion order. -/
structure RouteResult where
  route : Route
  needed_tools : List Str
  confidence : Rat
deriving DecidableEq

/-- Python set-union update `needed_tools.update(tools)`, keeping
first-insertion order. -/
def listUnion (a b : List Str) : List Str :=
  b.foldl (fun acc t => if acc.contains t then acc else acc ++ [t]) a

/-- The tool-keyword set of `SmartRouter._keyword_score`
(src/animara_v12_2_upgrade.py:233-239). -/
def tool_keywords : List Str :=
  ["задач", "таск", "найди", "поищи", "файл", "запомни",
   "помнишь", "время", "час", "gpu", "nvidia", "docker",
   "календар", "встреч", "почт", "письм", "команд",
   "запусти", "выполни", "статус", "систем", "сервер",
   "сводк", "отчёт", "мониторинг"].map String.toList

/-- `set(re.findall(r'\w+', text.lower()))`: the distinct lowercase word
tokens, in first-occurrence order. -/
def wordSet (text : Str) : List Str := (findWords (lowerStr text)).dedup

/-- src/animara_v12_2_upgrade.py:231-244 `SmartRouter._keyword_score`:
`min(len(words & tool_keywords) / 3, 1)`, and `0.0` when the overlap is
empty.  The float arithmetic agrees with exact rationals on the
comparison against `0.5` used by `classify`. -/
def keyword_score (text : Str) : Rat :=
  let overlap := (wordSet text).filter (fun w => tool_keywords.contains w)
  if overlap.isEmpty then 0 else min ((overlap.length : Rat) / 3) 1

/-- The keyword→tool table of `SmartRouter._guess_tools`
(src/animara_v12_2_upgrade.py:250-260). -/
def guess_mapping : List (Str × List Str) :=
  [("yougile".toList, ["задач", "таск", "доск", "канбан"].map String.toList),
   ("brightdata".toList,
    ["найди", "поищи", "интернет", "погод", "новост", "курс"].map String.toList),
   ("filesystem".toList, ["файл", "прочитай", "сохрани", "каталог"].map String.toList),
   ("memory".toList, ["запомни", "помнишь", "вспомни", "забудь"].map String.toList),
   ("time".toList, ["время", "час", "дата"].map String.toList),
   ("exec".toList,
    ["gpu", "nvidia", "docker", "систем", "сервер", "команд"].map String.toList),
   ("google_calendar".toList,
    ["календар", "встреч", "расписан", "событ"].map String.toList),
   ("gmail".toList, ["почт", "письм", "email"].map String.toList),
   ("milvus".toList, ["поиск", "памят", "семантик", "похож"].map String.toList)]

/-- src/animara_v12_2_upgrade.py:246-266 `SmartRouter._guess_tools`: a
tool is guessed when any of its keywords occurs as a substring of the
lowercased text. -/
def guess_tools (text : Str) : List Str :=
  let tl := lowerStr text
  (guess_mapping.filter (fun p => p.2.any (fun kw => hasSub kw tl))).map (fun p => p.1)

/-- The god-mode toggle alternatives of
`re.match(r"(?:режим бога|god mode|/god|/local)$", text, IGNORECASE)`
(src/animara_v12_2_upgrade.py:172); anchored at both ends on the stripped
text, so it is equality of the lowercased text with one alternative. -/
def god_toggle_list : List Str :=
  ["режим бога", "god mode", "/god", "/local"].map String.toList

/-- src/animara_v12_2_upgrade.py:161-229 `SmartRouter.classify`.  The two
compiled regex tables are inputs: `toolPatterns` pairs each pattern's
match test (`pattern.search(text)` as a boolean) with its tool set, and
`directPatterns` is the list of direct-pattern match tests; the claims
about this function quantify over texts none of these patterns match.
The cumulative `stats` counters are observability state and omitted. -/
def classify (toolPatterns : List ((Str → Bool) × List Str))
    (directPatterns : List (Str → Bool)) (user_input : Str) : RouteResult :=
  let text := trim user_input
  if god_toggle_list.contains (lowerStr text) then ⟨.direct, [], 1⟩
  else if text.head? == some '/' then ⟨.agent, [], 1⟩
  else
    let needed := toolPatterns.foldl
      (fun acc p => if p.1 text then listUnion acc p.2 else acc) []
    if !needed.isEmpty then ⟨.agent, needed, 9 / 10⟩
    else if directPatterns.any (fun p => p text) then ⟨.direct, [], 85 / 100⟩
    else
      let score := keyword_score text
      if 1 / 2 < score then ⟨.agent, guess_tools text, score⟩
      else if (splitWs text).length ≤ 8 then ⟨.direct, [], 6 / 10⟩
      else ⟨.agent, [], 1 / 2⟩

end Router

-- ═════════════════════════════════════════════════════════════════
-- Concrete runs used by the evaluation theorems
-- ═════════════════════════════════════════════════════════════════

/-- Default message for list lookups. -/
def mdefault : Core.CMsg := ⟨[], [], 0, false⟩

/-- A core session after appending a 205-character tool result and three
assistant replies (in this order) to a fresh session. -/
def c1run : Core.Session :=
  Core.add_message (Core.add_message (Core.add_message
    (Core.add_message ⟨[], 0⟩ "tool".toList (List.replicate 205 'x') true)
    Core.assistantRole "ok!".toList false)
    Core.assistantRole "ok!".toList false)
    Core.assistantRole "ok!".toList false

/-- A v12 session after 21 appends of a 3-character message (one more than
the deque bound of 20). -/
def v12run : V12.Session :=
  (List.range 21).foldl (fun s _ => V12.add_message s "user".toList "aaa".toList)
    ⟨[], 0, false, false⟩

/-- A core session holding a 250-character tool result and two assistant
replies. -/
def c6pre : Core.Session :=
  Core.add_message (Core.add_message
    (Core.add_message ⟨[], 0⟩ "tool".toList (List.replicate 250 'y') true)
    Core.assistantRole "ok!".toList false)
    Core.assistantRole "ok!".toList false

/-- The session `c6pre` after one more assistant append (which triggers
tool-result pruning of the first message). -/
def c6run : Core.Session := Core.add_message c6pre Core.assistantRole "ok!".toList false

/-- The intermediate state inside that append: the third assistant message
already stored, `_prune_old_tool_results` not yet run. -/
def c6mid : Core.Session :=
  ⟨c6pre.messages ++ [⟨Core.assistantRole, "ok!".toList, 1, false⟩],
   c6pre.total_tokens + 1⟩

/-- Shape of a tool-result message that respects the pruning contract:
its content either fits in the cap or is exactly a cap-length prefix of
some over-long content followed by one `"... [pruned]"` marker. -/
def prunedShape (m : Core.CMsg) : Prop :=
  m.is_tool = true →
    m.content.length ≤ Core.prune_tool_max_chars ∨
    ∃ c0, Core.prune_tool_max_chars < c0.length ∧ m.content = Core.pruneStr c0

-- ═════════════════════════════════════════════════════════════════
-- Theorems
-- ═════════════════════════════════════════════════════════════════

/-- C5 counterexample: the claim says the estimator returns
`max(1, ceil(len/3))`, but on the 4-character string "abcd" the code
returns `max(1, floor(4/3)) = 1` while the claimed value
`max(1, ceil(4/3)) = 2`. -/
theorem C5_counterexample :
    V12.estimate_tokens "abcd".toList = 1 ∧
    max 1 (("abcd".toList.length + 2) / 3) = 2 ∧
    V12.estimate_tokens "abcd".toList ≠ max 1 (("abcd".toList.length + 2) / 3) := by
  decide

/-- C5 amended: the v12 estimator returns `max(1, floor(len/3))` for
non-empty strings (hence at least 1) and 0 for the empty string, while the
core `count_tokens` returns `floor(len/3)`, which is 0 for strings shorter
than 3 characters. -/
theorem C5_amended (s : Str) (h : s ≠ []) :
    V12.estimate_tokens s = max 1 (s.length / 3) ∧
    1 ≤ V12.estimate_tokens s ∧
    V12.estimate_tokens [] = 0 ∧
    Core.count_tokens s = s.length / 3 ∧
    (s.length < 3 → Core.count_tokens s = 0) := by
  have hl : s.length ≠ 0 := by simpa using h
  refine ⟨?_, ?_, rfl, rfl, ?_⟩
  · simp [V12.estimate_tokens, hl]
  · simp [V12.estimate_tokens, hl]
  · intro h3
    simp only [Core.count_tokens]
    omega

/-- C5 witness: the amended statement evaluated at the 2-character string
"ab". -/
theorem C5_witness :
    "ab".toList ≠ [] ∧
    (V12.estimate_tokens "ab".toList = max 1 ("ab".toList.length / 3) ∧
     1 ≤ V12.estimate_tokens "ab".toList ∧
     V12.estimate_tokens [] = 0 ∧
     Core.count_tokens "ab".toList = "ab".toList.length / 3 ∧
     ("ab".toList.length < 3 → Core.count_tokens "ab".toList = 0)) :=
  ⟨by decide, C5_amended "ab".toList (by decide)⟩

/-- C7: `execute_tool` is a total function on every tool name, parameter
map and handler outcome; an unknown name, a handler timeout and a handler
exception each yield the corresponding short human-readable message, and a
successful handler's result is returned unchanged. -/
theorem C7_execute_tool_never_throws (tools : List Core.Tool) (name : Str)
    (params : List (Str × Str)) :
    (tools.find? (fun t => t.name == name) = none →
      Core.execute_tool tools name params = "❌ Неизвестный инструмент: ".toList ++ name) ∧
    (∀ tl, tools.find? (fun t => t.name == name) = some tl →
      (∀ r, tl.run params = Core.ToolOutcome.ok r →
        Core.execute_tool tools name params = r) ∧
      (tl.run params = Core.ToolOutcome.timedOut →
        Core.execute_tool tools name params = "❌ Таймаут инструмента ".toList ++ name) ∧
      (∀ e, tl.run params = Core.ToolOutcome.raised e →
        Core.execute_tool tools name params =
          "❌ Ошибка ".toList ++ name ++ ": ".toList ++ e)) := by
  constructor
  · intro h
    simp [Core.execute_tool, h]
  · intro tl h
    refine ⟨?_, ?_, ?_⟩
    · intro r hr
      simp [Core.execute_tool, h, hr]
    · intro hr
      simp [Core.execute_tool, h, hr]
    · intro e hr
      simp [Core.execute_tool, h, hr]

/-- C7 witness: a registered tool whose handler times out produces the
canned timeout message. -/
theorem C7_witness :
    ([Core.Tool.mk "t".toList (fun _ => Core.ToolOutcome.timedOut)].find?
        (fun tl => tl.name == "t".toList)
      = some (Core.Tool.mk "t".toList (fun _ => Core.ToolOutcome.timedOut))) ∧
    Core.execute_tool [Core.Tool.mk "t".toList (fun _ => Core.ToolOutcome.timedOut)]
        "t".toList []
      = "❌ Таймаут инструмента ".toList ++ "t".toList :=
  ⟨by rfl, ((C7_execute_tool_never_throws _ _ _).2 _ (by rfl)).2.1 (by rfl)⟩

/-- C10: a query that is empty or shorter than 3 characters makes the v12
hybrid retriever return the empty string, independently of the vector hits
and of the BM25 index state (so no search is consulted). -/
theorem C10_short_query (q p : Str) (v1 v2 : List VHit) (d1 d2 : List Str)
    (s1 s2 : List Rat) (h : q.length < 3) :
    V12.search q p v1 d1 s1 = [] ∧
    V12.search q p v1 d1 s1 = V12.search q p v2 d2 s2 := by
  unfold V12.search
  rw [if_pos h, if_pos h]
  exact ⟨rfl, rfl⟩

/-- C10 witness: the theorem evaluated on the 2-character query "ab" with
a non-trivial vector hit and BM25 state. -/
theorem C10_witness :
    "ab".toList.length < 3 ∧
    (V12.search "ab".toList "owner_sergey".toList [⟨"zzz".toList, 1⟩] ["d".toList] [5] = [] ∧
     V12.search "ab".toList "owner_sergey".toList [⟨"zzz".toList, 1⟩] ["d".toList] [5]
       = V12.search "ab".toList "owner_sergey".toList [] [] []) :=
  ⟨by decide, C10_short_query _ _ _ _ _ _ _ _ (by decide)⟩

/-- C2: for every caller other than the owner, the output of both hybrid
retrievers is independent of the BM25 index contents and scores — the
lexical path is consulted only when the caller is the owner. -/
theorem C2_lexical_only_for_owner (q p : Str) (top_k : Nat)
    (memHits convHits : List VHit) (b1 b2 : List (Str × Rat))
    (vh : List VHit) (d1 d2 : List Str) (s1 s2 : List Rat)
    (h : p ≠ "owner_sergey".toList) :
    Core.hybrid_search q p top_k memHits convHits b1
      = Core.hybrid_search q p top_k memHits convHits b2 ∧
    V12.search q p vh d1 s1 = V12.search q p vh d2 s2 := by
  have hb : (p == "owner_sergey".toList) = false := by
    simpa using h
  have hb' : (p == Core.owner_person_id) = false := hb
  constructor
  · unfold Core.hybrid_search
    rw [hb']
    simp
  · unfold V12.search
    rw [hb]
    simp

/-- C2 witness: the theorem evaluated for the caller "guest" with
non-trivial BM25 inputs on one side and empty ones on the other. -/
theorem C2_witness :
    "guest".toList ≠ "owner_sergey".toList ∧
    (Core.hybrid_search "query".toList "guest".toList 5 [⟨"m1".toList, 1 / 2⟩] []
        [("b".toList, 3)]
      = Core.hybrid_search "query".toList "guest".toList 5 [⟨"m1".toList, 1 / 2⟩] [] [] ∧
     V12.search "query".toList "guest".toList [⟨"v".toList, 1⟩] ["d".toList] [5]
       = V12.search "query".toList "guest".toList [⟨"v".toList, 1⟩] [] []) :=
  ⟨by decide, C2_lexical_only_for_owner _ _ _ _ _ _ _ _ _ _ _ _ (by decide)⟩

/-- C4 counterexample: from a session with `god_mode = false`, sending the
activation phrase "режим бога" and then the deactivation phrase
"выключи режим бога" does NOT return the flag to its original value: the
deactivation phrase contains an activation phrase as a substring, so the
activation branch (checked first) fires again, returning the activation
reply and leaving `god_mode = true`. -/
theorem C4_counterexample :
    V12.processToggle "режим бога".toList ⟨[], 0, false, false⟩
      = some (V12.god_on_reply, ⟨[], 0, true, false⟩) ∧
    V12.processToggle "выключи режим бога".toList ⟨[], 0, true, false⟩
      = some (V12.god_on_reply, ⟨[], 0, true, false⟩) ∧
    Option.map (fun r => r.2.god_mode)
        (V12.processToggle "выключи режим бога".toList ⟨[], 0, true, false⟩)
      ≠ some false := by
  decide

/-- C4 amended: for an activation phrase and a deactivation phrase that is
itself matched by the deactivation table and not by the activation table,
the pair of toggles sets `god_mode` to `true` and then back to `false`
(hence to the original value when it was `false`); each reply is the
canned constant, and the session's messages and token counter are
untouched. -/
theorem C4_amended (s : V12.Session) (act deact : Str)
    (hact : (V12.god_phrases.contains (lowerStr (trim act))
      || V12.god_phrases.any fun p => hasSub p (lowerStr (trim act))) = true)
    (hd1 : (V12.god_phrases.contains (lowerStr (trim deact))
      || V12.god_phrases.any fun p => hasSub p (lowerStr (trim deact))) = false)
    (hd2 : (V12.local_phrases.contains (lowerStr (trim deact))
      || V12.local_phrases.any fun p => hasSub p (lowerStr (trim deact))) = true) :
    V12.processToggle act s = some (V12.god_on_reply, { s with god_mode := true }) ∧
    V12.processToggle deact { s with god_mode := true }
      = some (V12.local_on_reply, { s with god_mode := false }) ∧
    ({ s with god_mode := false } : V12.Session).messages = s.messages ∧
    ({ s with god_mode := false } : V12.Session).total_tokens = s.total_tokens := by
  refine ⟨?_, ?_, rfl, rfl⟩
  · simp only [V12.processToggle]
    rw [hact]
    simp
  · simp only [V12.processToggle]
    rw [hd1, hd2]
    simp

/-- C4 witness: the amended statement evaluated with activation "/god" and
deactivation "/local" from a fresh session. -/
theorem C4_witness :
    ((V12.god_phrases.contains (lowerStr (trim "/god".toList))
      || V12.god_phrases.any fun p => hasSub p (lowerStr (trim "/god".toList))) = true) ∧
    ((V12.god_phrases.contains (lowerStr (trim "/local".toList))
      || V12.god_phrases.any fun p => hasSub p (lowerStr (trim "/local".toList))) = false) ∧
    ((V12.local_phrases.contains (lowerStr (trim "/local".toList))
      || V12.local_phrases.any fun p => hasSub p (lowerStr (trim "/local".toList))) = true) ∧
    (V12.processToggle "/god".toList ⟨[], 0, false, false⟩
        = some (V12.god_on_reply, ⟨[], 0, true, false⟩) ∧
     V12.processToggle "/local".toList ⟨[], 0, true, false⟩
        = some (V12.local_on_reply, ⟨[], 0, false, false⟩) ∧
     (⟨[], 0, false, false⟩ : V12.Session).messages
        = (⟨[], 0, false, false⟩ : V12.Session).messages ∧
     (⟨[], 0, false, false⟩ : V12.Session).total_tokens
        = (⟨[], 0, false, false⟩ : V12.Session).total_tokens) :=
  ⟨by decide, by decide, by decide,
   C4_amended ⟨[], 0, false, false⟩ "/god".toList "/local".toList
     (by decide) (by decide) (by decide)⟩

/-- Folding the tool-pattern table over a text none of its patterns match
leaves the accumulated tool set unchanged. -/
lemma foldl_tool_patterns_eq (text : Str) :
    ∀ (l : List ((Str → Bool) × List Str)) (acc : List Str),
      (∀ p ∈ l, p.1 text = false) →
      l.foldl (fun acc p => if p.1 text then Router.listUnion acc p.2 else acc) acc = acc := by
  intro l
  induction l with
  | nil => intro acc _; rfl
  | cons x xs ih =>
    intro acc h
    have hx : x.1 text = false := h x (List.mem_cons_self x xs)
    simp only [List.foldl_cons, hx, Bool.false_eq_true, if_false]
    exact ih acc (fun p hp => h p (List.mem_cons_of_mem x hp))

/-- C8: on an input that is not a god-mode toggle, not a slash command and
matches no tool pattern and no direct pattern, the classifier computes the
keyword score `min(overlap/3, 1)`; a score above 0.5 routes to `agent`
with the guessed tool set, otherwise at most 8 whitespace tokens route to
`direct` and more route to `agent` with an empty tool set; every decision
is `direct` or `agent`. -/
theorem C8_keyword_fallback (toolPatterns : List ((Str → Bool) × List Str))
    (directPatterns : List (Str → Bool)) (input : Str)
    (hg : Router.god_toggle_list.contains (lowerStr (trim input)) = false)
    (hs : ((trim input).head? == some '/') = false)
    (ht : ∀ p ∈ toolPatterns, p.1 (trim input) = false)
    (hd : ∀ p ∈ directPatterns, p (trim input) = false) :
    Router.keyword_score (trim input)
      = min ((((Router.wordSet (trim input)).filter
          (fun w => Router.tool_keywords.contains w)).length : Rat) / 3) 1 ∧
    (1 / 2 < Router.keyword_score (trim input) →
      Router.classify toolPatterns directPatterns input
        = ⟨Router.Route.agent, Router.guess_tools (trim input),
           Router.keyword_score (trim input)⟩) ∧
    (¬ (1 / 2 < Router.keyword_score (trim input)) →
      ((splitWs (trim input)).length ≤ 8 →
        Router.classify toolPatterns directPatterns input
          = ⟨Router.Route.direct, [], 6 / 10⟩) ∧
      (¬ ((splitWs (trim input)).length ≤ 8) →
        Router.classify toolPatterns directPatterns input
          = ⟨Router.Route.agent, [], 1 / 2⟩)) ∧
    ((Router.classify toolPatterns directPatterns input).route = Router.Route.direct ∨
     (Router.classify toolPatterns directPatterns input).route = Router.Route.agent) := by
  have hneed := foldl_tool_patterns_eq (trim input) toolPatterns [] ht
  have hany : (directPatterns.any fun p => p (trim input)) = false := by
    simp only [List.any_eq_false]
    exact fun p hp => by simp [hd p hp]
  have hcl : Router.classify toolPatterns directPatterns input
      = (if 1 / 2 < Router.keyword_score (trim input) then
          ⟨Router.Route.agent, Router.guess_tools (trim input),
           Router.keyword_score (trim input)⟩
        else if (splitWs (trim input)).length ≤ 8 then
          ⟨Router.Route.direct, [], 6 / 10⟩
        else ⟨Router.Route.agent, [], 1 / 2⟩) := by
    unfold Router.classify
    dsimp only
    rw [hg, hs, hneed, hany]
    simp
  refine ⟨?_, ?_, ?_, ?_⟩
  · unfold Router.keyword_score
    by_cases he : ((Router.wordSet (trim input)).filter
        (fun w => Router.tool_keywords.contains w)).isEmpty = true
    · rw [if_pos he]
      have : ((Router.wordSet (trim input)).filter
          (fun w => Router.tool_keywords.contains w)).length = 0 := by
        simpa [List.isEmpty_iff, List.length_eq_zero] using he
      rw [this]
      norm_num
    · rw [if_neg he]
  · intro hhi
    rw [hcl, if_pos hhi]
  · intro hlo
    rw [hcl, if_neg hlo]
    constructor
    · intro h8; rw [if_pos h8]
    · intro h8; rw [if_neg h8]
  · cases (Router.classify toolPatterns directPatterns input).route
    · exact Or.inl rfl
    · exact Or.inr rfl

/-- C8 witness: the theorem evaluated on a 3-word input with empty pattern
tables; the score is 0 and the decision is `direct`. -/
theorem C8_witness :
    Router.god_toggle_list.contains (lowerStr (trim "мой кот спит".toList)) = false ∧
    ((trim "мой кот спит".toList).head? == some '/') = false ∧
    (Router.keyword_score (trim "мой кот спит".toList)
       = min ((((Router.wordSet (trim "мой кот спит".toList)).filter
           (fun w => Router.tool_keywords.contains w)).length : Rat) / 3) 1 ∧
     (1 / 2 < Router.keyword_score (trim "мой кот спит".toList) →
       Router.classify [] [] "мой кот спит".toList
         = ⟨Router.Route.agent, Router.guess_tools (trim "мой кот спит".toList),
            Router.keyword_score (trim "мой кот спит".toList)⟩) ∧
     (¬ (1 / 2 < Router.keyword_score (trim "мой кот спит".toList)) →
       ((splitWs (trim "мой кот спит".toList)).length ≤ 8 →
         Router.classify [] [] "мой кот спит".toList
           = ⟨Router.Route.direct, [], 6 / 10⟩) ∧
       (¬ ((splitWs (trim "мой кот спит".toList)).length ≤ 8) →
         Router.classify [] [] "мой кот спит".toList
           = ⟨Router.Route.agent, [], 1 / 2⟩)) ∧
     ((Router.classify [] [] "мой кот спит".toList).route = Router.Route.direct ∨
      (Router.classify [] [] "мой кот спит".toList).route = Router.Route.agent)) :=
  ⟨by decide, by decide,
   C8_keyword_fallback [] [] "мой кот спит".toList (by decide) (by decide)
     (by intro p hp; cases hp) (by intro p hp; cases hp)⟩

/-- Pruning a message keeps its role. -/
lemma pruneMsg_role (m : Core.CMsg) : (Core.pruneMsg m).role = m.role := by
  unfold Core.pruneMsg
  split <;> rfl

/-- Appending at the back does not change an already-found assistant
position. -/
lemma kth_append (l : List Core.CMsg) (m : Core.CMsg) (k p : Nat)
    (h : Core.kthAssistantPos l k = some p) :
    Core.kthAssistantPos (l ++ [m]) k = some p := by
  induction l generalizing k p with
  | nil => simp [Core.kthAssistantPos] at h
  | cons x rest ih =>
    rw [List.cons_append]
    unfold Core.kthAssistantPos at h ⊢
    by_cases hx : (x.role == Core.assistantRole) = true
    · rw [hx] at h ⊢
      simp only [if_true]
      by_cases hk : k ≤ 1
      · rw [if_pos hk] at h ⊢
        exact h
      · rw [if_neg hk] at h ⊢
        rcases Option.map_eq_some'.1 h with ⟨p', hp', rfl⟩
        rw [ih _ _ hp']
        rfl
    · rw [Bool.not_eq_true] at hx
      rw [hx] at h ⊢
      simp only [Bool.false_eq_true, if_false]
      rcases Option.map_eq_some'.1 h with ⟨p', hp', rfl⟩
      rw [ih _ _ hp']
      rfl

/-- A found assistant position is inside the list. -/
lemma kth_lt_length (l : List Core.CMsg) (k p : Nat)
    (h : Core.kthAssistantPos l k = some p) : p < l.length := by
  induction l generalizing k p with
  | nil => simp [Core.kthAssistantPos] at h
  | cons x rest ih =>
    unfold Core.kthAssistantPos at h
    by_cases hx : (x.role == Core.assistantRole) = true
    · rw [hx] at h
      simp only [if_true] at h
      by_cases hk : k ≤ 1
      · rw [if_pos hk] at h
        cases h
        simp
      · rw [if_neg hk] at h
        rcases Option.map_eq_some'.1 h with ⟨p', hp', rfl⟩
        have := ih _ _ hp'
        simp only [List.length_cons]
        omega
    · rw [Bool.not_eq_true] at hx
      rw [hx] at h
      simp only [Bool.false_eq_true, if_false] at h
      rcases Option.map_eq_some'.1 h with ⟨p', hp', rfl⟩
      have := ih _ _ hp'
      simp only [List.length_cons]
      omega

/-- The assistant scan only looks at roles. -/
lemma kth_congr (l1 l2 : List Core.CMsg)
    (h : l1.map Core.CMsg.role = l2.map Core.CMsg.role) :
    ∀ k, Core.kthAssistantPos l1 k = Core.kthAssistantPos l2 k := by
  induction l1 generalizing l2 with
  | nil =>
    cases l2 with
    | nil => intro k; rfl
    | cons y t2 => simp at h
  | cons x t1 ih =>
    cases l2 with
    | nil => simp at h
    | cons y t2 =>
      simp only [List.map_cons, List.cons.injEq] at h
      intro k
      unfold Core.kthAssistantPos
      rw [h.1, ih t2 h.2, ih t2 h.2]

/-- The prune cut never exceeds the list length. -/
lemma pruneCut_le (l : List Core.CMsg) (n : Nat) : Core.pruneCut l n ≤ l.length := by
  unfold Core.pruneCut
  cases Core.kthAssistantPos l.reverse n with
  | none => exact Nat.zero_le _
  | some p =>
    show l.length - 1 - p ≤ l.length
    omega

/-- Two message lists with the same roles have the same prune cut. -/
lemma pruneCut_congr (l1 l2 : List Core.CMsg)
    (h : l1.map Core.CMsg.role = l2.map Core.CMsg.role) (n : Nat) :
    Core.pruneCut l1 n = Core.pruneCut l2 n := by
  have hrev : l1.reverse.map Core.CMsg.role = l2.reverse.map Core.CMsg.role := by
    rw [List.map_reverse, List.map_reverse, h]
  have hlen : l1.length = l2.length := by
    have := congrArg List.length h
    simpa using this
  unfold Core.pruneCut
  rw [kth_congr _ _ hrev n, hlen]

/-- The messages produced by `_prune_old_tool_results` carry the same
roles as before. -/
lemma prune_roles (s : Core.Session) :
    (Core.prune_old_tool_results s).messages.map Core.CMsg.role
      = s.messages.map Core.CMsg.role := by
  unfold Core.prune_old_tool_results
  dsimp only
  rw [List.map_append, List.map_map]
  have : (Core.CMsg.role ∘ Core.pruneMsg) = Core.CMsg.role := by
    funext m
    exact pruneMsg_role m
  rw [this, ← List.map_append, List.take_append_drop]

/-- After `_prune_old_tool_results`, every message strictly before the
prune cut has the pruned shape. -/
lemma prune_shape (s : Core.Session) :
    ∀ i, i < Core.pruneCut (Core.prune_old_tool_results s).messages
            Core.prune_after_messages →
      prunedShape ((Core.prune_old_tool_results s).messages.getD i mdefault) := by
  intro i hi
  have hcuteq : Core.pruneCut (Core.prune_old_tool_results s).messages
      Core.prune_after_messages = Core.pruneCut s.messages Core.prune_after_messages :=
    pruneCut_congr _ _ (prune_roles s) _
  rw [hcuteq] at hi
  have hcutle := pruneCut_le s.messages Core.prune_after_messages
  unfold Core.prune_old_tool_results
  dsimp only
  have hflen : ((s.messages.take (Core.pruneCut s.messages Core.prune_after_messages)).map
      Core.pruneMsg).length = Core.pruneCut s.messages Core.prune_after_messages := by
    simp [Nat.min_eq_left hcutle]
  rw [List.getD_append _ _ _ _ (by rw [hflen]; exact hi)]
  have hi2 : i < (s.messages.take (Core.pruneCut s.messages Core.prune_after_messages)).length := by
    simp [Nat.min_eq_left hcutle]
    omega
  rw [List.getD_eq_getElem _ _ (by rw [hflen]; exact hi)]
  rw [List.getElem_map]
  intro htool
  by_cases hfire : (((s.messages.take (Core.pruneCut s.messages Core.prune_after_messages))[i]).is_tool
      && decide (Core.prune_tool_max_chars
        < ((s.messages.take (Core.pruneCut s.messages Core.prune_after_messages))[i]).content.length)) = true
  · right
    refine ⟨((s.messages.take (Core.pruneCut s.messages Core.prune_after_messages))[i]).content,
      ?_, ?_⟩
    · rw [Bool.and_eq_true] at hfire
      exact of_decide_eq_true hfire.2
    · unfold Core.pruneMsg
      rw [if_pos hfire]
  · left
    unfold Core.pruneMsg at htool ⊢
    rw [if_neg hfire] at htool ⊢
    rw [Bool.and_eq_true] at hfire
    push_neg at hfire
    have := hfire htool
    simpa using this

/-- Evicting the oldest message preserves the pruned shape of everything
before the (shifted) prune cut. -/
lemma shape_tail (l : List Core.CMsg)
    (h : ∀ i, i < Core.pruneCut l Core.prune_after_messages →
      prunedShape (l.getD i mdefault)) :
    ∀ i, i < Core.pruneCut l.tail Core.prune_after_messages →
      prunedShape (l.tail.getD i mdefault) := by
  cases l with
  | nil =>
    intro i hi
    simp [Core.pruneCut, Core.kthAssistantPos] at hi
  | cons x t =>
    intro i hi
    simp only [List.tail_cons] at hi ⊢
    rcases hk : Core.kthAssistantPos t.reverse Core.prune_after_messages with _ | p
    · unfold Core.pruneCut at hi
      rw [hk] at hi
      simp at hi
    · have hp : p < t.length := by
        have := kth_lt_length _ _ _ hk
        simpa using this
      have hk2 : Core.kthAssistantPos (x :: t).reverse Core.prune_after_messages = some p := by
        rw [List.reverse_cons]
        exact kth_append _ _ _ _ hk
      have hcutt : Core.pruneCut t Core.prune_after_messages = t.length - 1 - p := by
        unfold Core.pruneCut
        rw [hk]
      have hcut : Core.pruneCut (x :: t) Core.prune_after_messages = t.length - p := by
        unfold Core.pruneCut
        rw [hk2]
        simp only [List.length_cons]
        omega
      rw [hcutt] at hi
      have := h (i + 1) (by rw [hcut]; omega)
      simpa using this

/-- `add_message` produces either the pruned message list or (on
eviction) its tail. -/
lemma add_message_cases (s : Core.Session) (role content : Str) (tool : Bool) :
    (Core.add_message s role content tool).messages
        = (Core.prune_old_tool_results
            ⟨s.messages ++ [⟨role, content, Core.count_tokens content, tool⟩],
             s.total_tokens + Core.count_tokens content⟩).messages
    ∨ (Core.add_message s role content tool).messages
        = (Core.prune_old_tool_results
            ⟨s.messages ++ [⟨role, content, Core.count_tokens content, tool⟩],
             s.total_tokens + Core.count_tokens content⟩).messages.tail := by
  unfold Core.add_message
  dsimp only
  split
  · split
    · next heq =>
      right
      rw [heq]
      rfl
    · next m rest heq =>
      right
      rw [heq]
      rfl
  · left
    rfl

/-- Truncating an already-truncated tool result changes nothing: the
`"... [pruned]"` marker is appended exactly once. -/
lemma pruneMsg_idem (m : Core.CMsg) :
    Core.pruneMsg (Core.pruneMsg m) = Core.pruneMsg m := by
  by_cases hfire : (m.is_tool && decide (Core.prune_tool_max_chars < m.content.length)) = true
  · have hlong : Core.prune_tool_max_chars < m.content.length := by
      rw [Bool.and_eq_true] at hfire
      exact of_decide_eq_true hfire.2
    have htl : (m.content.take Core.prune_tool_max_chars).length
        = Core.prune_tool_max_chars := by
      simp [Nat.min_eq_left (Nat.le_of_lt hlong)]
    have hps : Core.pruneStr (Core.pruneStr m.content) = Core.pruneStr m.content := by
      unfold Core.pruneStr
      rw [List.take_append_of_le_length (by rw [htl])]
      rw [List.take_take]
      rfl
    unfold Core.pruneMsg
    rw [if_pos hfire]
    dsimp only
    have hfire2 : (m.is_tool && decide (Core.prune_tool_max_chars
        < (Core.pruneStr m.content).length)) = true := by
      rw [Bool.and_eq_true] at hfire ⊢
      refine ⟨hfire.1, ?_⟩
      apply decide_eq_true
      unfold Core.pruneStr
      simp [Core.pruned_marker, htl]
    rw [if_pos hfire2, hps]
  · unfold Core.pruneMsg
    rw [if_neg hfire, if_neg hfire]

/-- The per-message token deltas summed over the pruned front equal the
difference of the stored-token sums before and after the map. -/
lemma zip_saved_sum (f : Core.CMsg → Core.CMsg) :
    ∀ a : List Core.CMsg,
      (((a.zip (a.map f)).map (fun p => (p.1.tokens : Int) - (p.2.tokens : Int))).sum)
        = (a.map fun m => (m.tokens : Int)).sum
          - ((a.map f).map fun m => (m.tokens : Int)).sum := by
  intro a
  induction a with
  | nil => simp
  | cons x rest ih =>
    simp only [List.map_cons, List.zip_cons_cons, List.sum_cons, ih]
    ring

/-- `_prune_old_tool_results` decrements the token counter by exactly the
net stored-token savings when that net is positive, and leaves the counter
unchanged otherwise. -/
lemma prune_total (t : Core.Session) :
    (Core.prune_old_tool_results t).total_tokens
      = t.total_tokens
        - max 0 ((t.messages.map fun m => (m.tokens : Int)).sum
          - ((Core.prune_old_tool_results t).messages.map fun m => (m.tokens : Int)).sum) := by
  unfold Core.prune_old_tool_results
  dsimp only
  have hsplit : t.messages
      = t.messages.take (Core.pruneCut t.messages Core.prune_after_messages)
        ++ t.messages.drop (Core.pruneCut t.messages Core.prune_after_messages) :=
    (List.take_append_drop _ _).symm
  have hsum_old : (t.messages.map fun m => (m.tokens : Int)).sum
      = ((t.messages.take (Core.pruneCut t.messages Core.prune_after_messages)).map
          fun m => (m.tokens : Int)).sum
        + ((t.messages.drop (Core.pruneCut t.messages Core.prune_after_messages)).map
          fun m => (m.tokens : Int)).sum := by
    conv_lhs => rw [hsplit]
    simp
  have hsum_new : ((((t.messages.take (Core.pruneCut t.messages Core.prune_after_messages)).map
        Core.pruneMsg)
      ++ t.messages.drop (Core.pruneCut t.messages Core.prune_after_messages)).map
        fun m => (m.tokens : Int)).sum
      = (((t.messages.take (Core.pruneCut t.messages Core.prune_after_messages)).map
          Core.pruneMsg).map fun m => (m.tokens : Int)).sum
        + ((t.messages.drop (Core.pruneCut t.messages Core.prune_after_messages)).map
          fun m => (m.tokens : Int)).sum := by
    simp
  have hzip := zip_saved_sum Core.pruneMsg
    (t.messages.take (Core.pruneCut t.messages Core.prune_after_messages))
  by_cases hpos : (0 : Int)
      < (((t.messages.take (Core.pruneCut t.messages Core.prune_after_messages)).zip
          ((t.messages.take (Core.pruneCut t.messages Core.prune_after_messages)).map
            Core.pruneMsg)).map
          (fun p => (p.1.tokens : Int) - (p.2.tokens : Int))).sum
  · rw [if_pos hpos]
    omega
  · rw [if_neg hpos]
    omega

set_option maxRecDepth 40000 in
/-- C6 counterexample: after an append, the over-long tool result
preceding the prune cut has content length 212, not the cap 200 — the code
truncates to the cap and then appends the 12-character marker, so the
stored content is longer than the cap the claim states. -/
theorem C6_counterexample :
    0 < Core.pruneCut c6run.messages Core.prune_after_messages ∧
    (c6run.messages.getD 0 mdefault).is_tool = true ∧
    (c6run.messages.getD 0 mdefault).content.length = 212 ∧
    (c6run.messages.getD 0 mdefault).content.length ≠ Core.prune_tool_max_chars ∧
    Core.prune_tool_max_chars < (c6run.messages.getD 0 mdefault).content.length := by
  decide

/-- C6 amended: after every append, every tool-result message strictly
before the prune cut either fits in the cap or is exactly a cap-length
prefix of its over-long content followed by one marker (length cap + 12);
the truncation is idempotent, so the marker is appended exactly once; and
the pruning step decrements the token counter by exactly the net
stored-token savings when that net is positive, leaving it unchanged
otherwise. -/
theorem C6_amended (s : Core.Session) (role content : Str) (tool : Bool) :
    (∀ i, i < Core.pruneCut (Core.add_message s role content tool).messages
            Core.prune_after_messages →
      prunedShape ((Core.add_message s role content tool).messages.getD i mdefault)) ∧
    (∀ m : Core.CMsg, Core.pruneMsg (Core.pruneMsg m) = Core.pruneMsg m) ∧
    (∀ t : Core.Session,
      (Core.prune_old_tool_results t).total_tokens
        = t.total_tokens
          - max 0 ((t.messages.map fun m => (m.tokens : Int)).sum
            - ((Core.prune_old_tool_results t).messages.map
                fun m => (m.tokens : Int)).sum)) := by
  refine ⟨?_, pruneMsg_idem, prune_total⟩
  rcases add_message_cases s role content tool with h | h <;> rw [h]
  · exact prune_shape _
  · exact shape_tail _ (prune_shape _)

set_option maxRecDepth 40000 in
/-- C6 witness: the amended statement evaluated on a session holding a
250-character tool result when the third assistant reply arrives; the
pruning of that append saves a strictly positive net of tokens, and the
counter equation is exercised on the corresponding intermediate state. -/
theorem C6_witness :
    0 < Core.pruneCut (Core.add_message c6pre Core.assistantRole "ok!".toList false).messages
        Core.prune_after_messages ∧
    ((Core.add_message c6pre Core.assistantRole "ok!".toList false).messages.getD 0
        mdefault).is_tool = true ∧
    (((Core.add_message c6pre Core.assistantRole "ok!".toList false).messages.getD 0
          mdefault).content.length ≤ Core.prune_tool_max_chars ∨
      ∃ c0, Core.prune_tool_max_chars < c0.length ∧
        ((Core.add_message c6pre Core.assistantRole "ok!".toList false).messages.getD 0
            mdefault).content = Core.pruneStr c0) ∧
    (0 : Int) < (c6mid.messages.map fun m => (m.tokens : Int)).sum
      - ((Core.prune_old_tool_results c6mid).messages.map fun m => (m.tokens : Int)).sum ∧
    (Core.prune_old_tool_results c6mid).total_tokens
      = c6mid.total_tokens
        - max 0 ((c6mid.messages.map fun m => (m.tokens : Int)).sum
          - ((Core.prune_old_tool_results c6mid).messages.map
              fun m => (m.tokens : Int)).sum) :=
  ⟨by decide, by decide,
   (C6_amended c6pre Core.assistantRole "ok!".toList false).1 0 (by decide) (by decide),
   by decide,
   (C6_amended c6pre Core.assistantRole "ok!".toList false).2.2 c6mid⟩

set_option maxRecDepth 40000 in
/-- C1: the token-counter invariant `total_tokens = Σ tokens` fails on the
code.  Core: appending a 205-character tool result and three assistant
replies leaves `total_tokens = 71` while the stored tokens sum to 73 —
pruning lengthens the 205-character content to 212 characters and the
negative `tokens_saved` adjustment is skipped.  v12: after 21 appends the
deque evicts a message without decrementing the counter (21 vs 20). -/
theorem C1_invariant_violated :
    c1run.total_tokens = 71 ∧
    (c1run.messages.map fun m => (m.tokens : Int)).sum = 73 ∧
    c1run.total_tokens ≠ (c1run.messages.map fun m => (m.tokens : Int)).sum ∧
    v12run.total_tokens = 21 ∧
    (v12run.messages.map fun m => ((m.content.length / 3 : Nat) : Int)).sum = 20 ∧
    v12run.total_tokens
      ≠ (v12run.messages.map fun m => ((m.content.length / 3 : Nat) : Int)).sum := by
  decide

/-- Every list is prefixed by itself before any continuation. -/
lemma isPrefixL_append_self (p s : Str) : isPrefixL p (p ++ s) = true := by
  induction p with
  | nil => rfl
  | cons c r ih => simp [isPrefixL, ih]

/-- A verified prefix is the corresponding take. -/
lemma isPrefixL_eq_take (p s : Str) (h : isPrefixL p s = true) :
    p.length ≤ s.length ∧ s.take p.length = p := by
  induction p generalizing s with
  | nil => simp
  | cons c r ih =>
    cases s with
    | nil => simp [isPrefixL] at h
    | cons d t =>
      simp only [isPrefixL, Bool.and_eq_true, beq_iff_eq] at h
      rcases ih t h.2 with ⟨hl, ht⟩
      refine ⟨by simpa using hl, ?_⟩
      simp [List.take_cons, ht, h.1]

/-- Every take of a list is one of its prefixes. -/
lemma isPrefixL_take (n : Nat) (s : Str) : isPrefixL (s.take n) s = true := by
  induction s generalizing n with
  | nil => simp [isPrefixL]
  | cons c r ih =>
    cases n with
    | zero => rfl
    | succ m => simp [isPrefixL, ih]

/-- A pattern that prefixes some suffix of `l` occurs in `l`. -/
lemma hasSub_of_drop (pat l : Str) (k : Nat)
    (h : isPrefixL pat (l.drop k) = true) : hasSub pat l = true := by
  induction l generalizing k with
  | nil =>
    cases k with
    | zero =>
      cases pat with
      | nil => rfl
      | cons c r => simp [isPrefixL] at h
    | succ m =>
      cases pat with
      | nil => rfl
      | cons c r => simp [isPrefixL] at h
  | cons c r ih =>
    cases k with
    | zero =>
      rw [List.drop_zero] at h
      unfold hasSub
      rw [h]
      rfl
    | succ m =>
      unfold hasSub
      rw [ih m (by simpa using h)]
      simp

/-- When no occurrence of `pat` starts inside `a` and `pat` prefixes `b`,
its leftmost occurrence in `a ++ b` is exactly at `a.length`. -/
lemma findSub_append (pat b : Str) :
    ∀ (a : Str), (∀ k, k < a.length → isPrefixL pat (a.drop k ++ b) = false) →
      isPrefixL pat b = true → findSub pat (a ++ b) = some a.length := by
  intro a
  induction a with
  | nil =>
    intro _ hb
    simp only [List.nil_append, List.length_nil]
    cases b with
    | nil =>
      cases pat with
      | nil => rfl
      | cons c r => simp [isPrefixL] at hb
    | cons d t =>
      unfold findSub
      rw [hb]
      rfl
  | cons x a' ih =>
    intro hno hb
    rw [List.cons_append]
    unfold findSub
    have h0 := hno 0 (by simp)
    rw [List.drop_zero, List.cons_append] at h0
    rw [h0]
    simp only [Bool.false_eq_true, if_false]
    have hno' : ∀ k, k < a'.length → isPrefixL pat (a'.drop k ++ b) = false := by
      intro k hk
      have := hno (k + 1) (by simpa using Nat.succ_lt_succ hk)
      simpa using this
    rw [ih hno' hb]
    simp

/-- A whitespace character is not `'<'`. -/
lemma wsChar_ne_lt (c : Char) (h : isWsB c = true) : ('<' == c) = false := by
  simp only [isWsB, Bool.or_eq_true, beq_iff_eq] at h
  rcases h with ((((h | h) | h) | h) | h) | h <;> subst h <;> decide

/-- No occurrence of `'<think>'` starts inside an all-whitespace
segment. -/
lemma ws_no_thinkOpen (ws b : Str) (h : ∀ c ∈ ws, isWsB c = true) :
    ∀ k, k < ws.length → isPrefixL V12.thinkOpen (ws.drop k ++ b) = false := by
  intro k hk
  rw [List.drop_eq_getElem_cons hk, List.cons_append]
  have hw : isWsB ws[k] = true := h _ (ws.getElem_mem hk)
  show isPrefixL ('<' :: "think>".toList) (ws[k] :: (ws.drop (k + 1) ++ b)) = false
  unfold isPrefixL
  rw [wsChar_ne_lt _ hw]
  rfl

/-- No occurrence of `'</think>'` starts inside `inner` when `inner` does
not contain it: an occurrence fully inside `inner` contradicts the
hypothesis, and `'</think>'` has no non-trivial period, so none can
straddle the boundary. -/
lemma inner_no_thinkClose (inner tail : Str)
    (h3 : hasSub V12.thinkClose inner = false) :
    ∀ k, k < inner.length →
      isPrefixL V12.thinkClose (inner.drop k ++ (V12.thinkClose ++ tail)) = false := by
  intro k hk
  by_contra hc
  rw [Bool.not_eq_false] at hc
  rcases isPrefixL_eq_take _ _ hc with ⟨_, htake⟩
  have hcl : V12.thinkClose.length = 8 := by decide
  by_cases hm : 8 ≤ (inner.drop k).length
  · have h8 : V12.thinkClose.length ≤ (inner.drop k).length := by rw [hcl]; exact hm
    rw [List.take_append_of_le_length h8] at htake
    have hpre : isPrefixL V12.thinkClose (inner.drop k) = true := by
      rw [← htake]
      exact isPrefixL_take _ _
    rw [hasSub_of_drop _ _ _ hpre] at h3
    cases h3
  · push_neg at hm
    have hm1 : 0 < (inner.drop k).length := by
      simp only [List.length_drop]
      omega
    have htk : (inner.drop k).take V12.thinkClose.length = inner.drop k :=
      List.take_of_length_le (by omega)
    rw [List.take_append_eq_append_take, htk] at htake
    have hrest : (V12.thinkClose ++ tail).take (V12.thinkClose.length - (inner.drop k).length)
        = V12.thinkClose.take (V12.thinkClose.length - (inner.drop k).length) :=
      List.take_append_of_le_length (by omega)
    rw [hrest] at htake
    have hdrop := congrArg (List.drop (inner.drop k).length) htake
    rw [List.drop_left] at hdrop
    rw [hcl] at hdrop
    have hcontra : ∀ m, m < 8 → 0 < m →
        ¬ (V12.thinkClose.drop m = V12.thinkClose.take (8 - m)) := by decide
    exact hcontra (inner.drop k).length (by omega) hm1 hdrop.symm

/-- Dropping leading whitespace from all-whitespace text leaves nothing. -/
lemma dropWhile_ws (ws : Str) (h : ∀ c ∈ ws, isWsB c = true) :
    ws.dropWhile isWsB = [] := by
  induction ws with
  | nil => rfl
  | cons c r ih =>
    rw [List.dropWhile_cons]
    rw [h c (List.mem_cons_self c r)]
    exact ih (fun d hd => h d (List.mem_cons_of_mem c hd))

/-- Stripping all-whitespace text yields the empty string. -/
lemma trim_ws (ws : Str) (h : ∀ c ∈ ws, isWsB c = true) : trim ws = [] := by
  unfold trim
  rw [dropWhile_ws ws h]
  rfl

/-- The fuelled think-sub on the empty string is the empty string. -/
lemma subThink_nil : ∀ n, V12.subThink n [] = [] := by
  intro n
  cases n with
  | zero => rfl
  | succ m =>
    have h : V12.findThinkBlock [] = none := by decide
    unfold V12.subThink
    rw [h]

/-- C9: an input consisting of exactly one `<think>…</think>` block with
surrounding whitespace is cleaned to the stripped contents of the block.
The hypothesis `h3` says the block is closed exactly once (the body
contains no `'</think>'`), which is what "consists only of a think block"
requires. -/
theorem C9_think_only_block (ws1 inner ws2 : Str)
    (h1 : ∀ c ∈ ws1, isWsB c = true) (h2 : ∀ c ∈ ws2, isWsB c = true)
    (h3 : hasSub V12.thinkClose inner = false) :
    V12.clean_think_blocks
        (ws1 ++ (V12.thinkOpen ++ (inner ++ (V12.thinkClose ++ ws2))))
      = trim inner := by
  have hol : V12.thinkOpen.length = 7 := by decide
  have hcl : V12.thinkClose.length = 8 := by decide
  -- the leftmost '<think>' is at ws1.length
  have hfo : findSub V12.thinkOpen
      (ws1 ++ (V12.thinkOpen ++ (inner ++ (V12.thinkClose ++ ws2)))) = some ws1.length :=
    findSub_append _ _ ws1 (ws_no_thinkOpen ws1 _ h1)
      (isPrefixL_append_self _ _)
  -- dropping the prefix and the opener leaves the block body
  have hdrop1 : (ws1 ++ (V12.thinkOpen ++ (inner ++ (V12.thinkClose ++ ws2)))).drop
      (ws1.length + V12.thinkOpen.length) = inner ++ (V12.thinkClose ++ ws2) := by
    rw [← List.append_assoc ws1 V12.thinkOpen]
    rw [show ws1.length + V12.thinkOpen.length = (ws1 ++ V12.thinkOpen).length by
      simp]
    exact List.drop_left _ _
  -- the first '</think>' after the opener is at inner.length
  have hfc : findSub V12.thinkClose (inner ++ (V12.thinkClose ++ ws2))
      = some inner.length :=
    findSub_append _ _ inner (inner_no_thinkClose inner ws2 h3)
      (isPrefixL_append_self _ _)
  -- dropping body and closer leaves the trailing whitespace
  have hdrop2 : (inner ++ (V12.thinkClose ++ ws2)).drop
      (inner.length + V12.thinkClose.length) = ws2 := by
    rw [← List.append_assoc inner V12.thinkClose]
    rw [show inner.length + V12.thinkClose.length = (inner ++ V12.thinkClose).length by
      simp]
    exact List.drop_left _ _
  have htake1 : (ws1 ++ (V12.thinkOpen ++ (inner ++ (V12.thinkClose ++ ws2)))).take
      ws1.length = ws1 := List.take_left _ _
  have htake2 : (inner ++ (V12.thinkClose ++ ws2)).take inner.length = inner :=
    List.take_left _ _
  -- one sub step removes the whole block and the trailing whitespace
  have hftb : V12.findThinkBlock
      (ws1 ++ (V12.thinkOpen ++ (inner ++ (V12.thinkClose ++ ws2))))
      = some (ws1, []) := by
    unfold V12.findThinkBlock
    rw [hfo]
    dsimp only
    rw [hdrop1, hfc]
    dsimp only
    rw [htake1, hdrop2, dropWhile_ws ws2 h2]
  -- hence the first regex sub leaves exactly the leading whitespace
  have hlen : (ws1 ++ (V12.thinkOpen ++ (inner ++ (V12.thinkClose ++ ws2)))).length
      = ws1.length + inner.length + ws2.length + 15 := by
    simp only [List.length_append, hol, hcl]
    omega
  have hsub : V12.subThinkAll
      (ws1 ++ (V12.thinkOpen ++ (inner ++ (V12.thinkClose ++ ws2)))) = ws1 := by
    unfold V12.subThinkAll
    rw [hlen]
    rw [show ws1.length + inner.length + ws2.length + 15
        = (ws1.length + inner.length + ws2.length + 14) + 1 by omega]
    unfold V12.subThink
    rw [hftb]
    dsimp only
    rw [subThink_nil _]
    simp
  -- the closed-think search returns the block body
  have hst : V12.searchThink
      (ws1 ++ (V12.thinkOpen ++ (inner ++ (V12.thinkClose ++ ws2)))) = some inner := by
    unfold V12.searchThink
    rw [hfo]
    dsimp only
    rw [hdrop1, hfc]
    dsimp only
    rw [htake2]
  -- guards
  have hemp : (ws1 ++ (V12.thinkOpen ++ (inner ++ (V12.thinkClose ++ ws2)))).isEmpty
      = false := by
    cases hx : (ws1 ++ (V12.thinkOpen ++ (inner ++ (V12.thinkClose ++ ws2)))) with
    | nil =>
      have := congrArg List.length hx
      rw [hlen] at this
      simp at this
    | cons c r => rfl
  have hlow : hasSub V12.thinkOpen
      (lowerStr (ws1 ++ (V12.thinkOpen ++ (inner ++ (V12.thinkClose ++ ws2))))) = true := by
    apply hasSub_of_drop _ _ (lowerStr ws1).length
    unfold lowerStr
    rw [List.map_append]
    rw [show (List.map lowerChar ws1).length = ((ws1.map lowerChar) : Str).length from rfl]
    rw [List.drop_left]
    rw [List.map_append]
    rw [show V12.thinkOpen.map lowerChar = V12.thinkOpen by decide]
    exact isPrefixL_append_self _ _
  -- assemble
  unfold V12.clean_think_blocks
  dsimp only
  rw [hemp, hlow, hsub]
  rw [trim_ws ws1 h1]
  rw [show V12.subThinkOpen ([] : Str) = [] by decide]
  rw [show trim ([] : Str) = [] from rfl]
  rw [hst]
  simp

/-- C9 witness: the theorem evaluated on a single think block with a
leading blank and a trailing newline. -/
theorem C9_witness :
    (∀ c ∈ " ".toList, isWsB c = true) ∧
    (∀ c ∈ "\n".toList, isWsB c = true) ∧
    hasSub V12.thinkClose "hi there".toList = false ∧
    V12.clean_think_blocks
        (" ".toList ++ (V12.thinkOpen ++ ("hi there".toList
          ++ (V12.thinkClose ++ "\n".toList))))
      = trim "hi there".toList :=
  ⟨by decide, by decide, by decide,
   C9_think_only_block " ".toList "hi there".toList "\n".toList
     (by decide) (by decide) (by decide)⟩

/-- The token estimate is at least the floored third of the length. -/
lemma est_ge (s : Str) : s.length / 3 ≤ V12.estimate_tokens s := by
  unfold V12.estimate_tokens
  split
  · omega
  · exact le_max_right _ _

/-- The token estimate exceeds the floored third by at most one. -/
lemma est_le (s : Str) : V12.estimate_tokens s ≤ s.length / 3 + 1 := by
  unfold V12.estimate_tokens
  split
  · omega
  · rw [Nat.max_def]
    split <;> omega

/-- For strings of length at least 3 the estimate is exactly the floored
third. -/
lemma est_eq_of_ge3 (s : Str) (h : 3 ≤ s.length) :
    V12.estimate_tokens s = s.length / 3 := by
  unfold V12.estimate_tokens
  rw [if_neg (by omega)]
  have h1 : 1 ≤ s.length / 3 := by omega
  exact Nat.max_eq_right h1

/-- Unfolding `estimate_messages_tokens` over a cons. -/
lemma EM_cons (m : V12.PMsg) (l : List V12.PMsg) :
    V12.estimate_messages_tokens (m :: l)
      = V12.estimate_tokens m.content + 4 + V12.estimate_messages_tokens l := by
  simp [V12.estimate_messages_tokens]

/-- The stage-2 loop never removes more estimated tokens from the history
than it subtracts from the overflow (each pop also saves the 4-token
per-message overhead). -/
lemma stage2go_bound (t : List V12.PMsg) : ∀ ov : Int,
    (V12.estimate_messages_tokens (V12.stage2go ov t).2 : Int) + ov
      ≤ (V12.estimate_messages_tokens t : Int) + (V12.stage2go ov t).1 := by
  induction t with
  | nil =>
    intro ov
    simp [V12.stage2go]
  | cons m1 rest ih =>
    intro ov
    cases rest with
    | nil => simp [V12.stage2go]
    | cons m2 rest' =>
      simp only [V12.stage2go]
      by_cases hov : (0 : Int) < ov
      · rw [if_pos hov]
        have hih := ih (ov - V12.estimate_tokens m1.content)
        have hEM := EM_cons m1 (m2 :: rest')
        omega
      · rw [if_neg hov]

/-- Stage 3 either lands within 5 tokens of the target or cuts the system
prompt to the 500-character floor plus the 14-character marker. -/
lemma stage3_bound (X ov1 : Int) (sys : Str) (msgs1 : List V12.PMsg)
    (h : (V12.estimate_tokens sys + V12.estimate_messages_tokens msgs1 : Int) ≤ X + ov1)
    (hov : 0 < ov1) :
    ((V12.estimate_tokens (sys.take (max 500 ((sys.length : Int) - ov1 * 3)).toNat
        ++ V12.sysTrimMark)
      + V12.estimate_messages_tokens msgs1 : Int) ≤ X + 5)
    ∨ (sys.take (max 500 ((sys.length : Int) - ov1 * 3)).toNat
        ++ V12.sysTrimMark).length ≤ 514 := by
  have hmk : V12.sysTrimMark.length = 14 := by decide
  rcases le_or_lt ((sys.length : Int) - ov1 * 3) 500 with hle | hgt
  · right
    rw [max_eq_left hle]
    rw [show ((500 : Int).toNat) = 500 from rfl]
    simp only [List.length_append, List.length_take, hmk]
    omega
  · left
    rw [max_eq_right (le_of_lt hgt)]
    set tn := ((sys.length : Int) - ov1 * 3).toNat with htn
    have htn' : (tn : Int) = (sys.length : Int) - ov1 * 3 :=
      Int.toNat_of_nonneg (by omega)
    have htnL : tn ≤ sys.length := by omega
    have hlen : (sys.take tn ++ V12.sysTrimMark).length = tn + 14 := by
      simp only [List.length_append, List.length_take, hmk]
      omega
    have hest : V12.estimate_tokens (sys.take tn ++ V12.sysTrimMark) = (tn + 14) / 3 := by
      rw [est_eq_of_ge3 _ (by omega), hlen]
    rw [hest]
    have hegs := est_ge sys
    omega

/-- Stages 2-3 either land within 5 tokens of the target or cut the system
prompt to its floor (at most 514 characters). -/
lemma stage23_bound (X ov : Int) (sys : Str) (msgs : List V12.PMsg)
    (h : (V12.estimate_tokens sys + V12.estimate_messages_tokens msgs : Int) ≤ X + ov) :
    ((V12.estimate_tokens (V12.stage23 ov sys msgs).1
      + V12.estimate_messages_tokens (V12.stage23 ov sys msgs).2 : Int) ≤ X + 5)
    ∨ (V12.stage23 ov sys msgs).1.length ≤ 514 := by
  unfold V12.stage23 V12.stage2
  cases msgs with
  | nil =>
    dsimp only
    by_cases hov : (0 : Int) < ov
    · rw [if_pos hov]
      exact stage3_bound X ov sys [] h hov
    · rw [if_neg hov]
      dsimp only
      left
      omega
  | cons m0 t =>
    dsimp only
    have hgo := stage2go_bound t ov
    have hEM1 := EM_cons m0 t
    have hEM2 := EM_cons m0 (V12.stage2go ov t).2
    by_cases hov : (0 : Int) < (V12.stage2go ov t).1
    · rw [if_pos hov]
      exact stage3_bound X (V12.stage2go ov t).1 sys (m0 :: (V12.stage2go ov t).2)
        (by omega) hov
    · rw [if_neg hov]
      dsimp only
      left
      omega

/-- A found occurrence splits the string as prefix, pattern, suffix. -/
lemma findSub_spec (pat : Str) : ∀ (s : Str) (i : Nat), findSub pat s = some i →
    i + pat.length ≤ s.length ∧ s.take i ++ pat ++ s.drop (i + pat.length) = s := by
  intro s
  induction s with
  | nil =>
    intro i h
    cases pat with
    | nil =>
      simp [findSub] at h
      subst h
      simp
    | cons c r => simp [findSub] at h
  | cons c rest ih =>
    intro i h
    unfold findSub at h
    by_cases hp : isPrefixL pat (c :: rest) = true
    · rw [if_pos hp] at h
      injection h with h'
      subst h'
      rcases isPrefixL_eq_take pat (c :: rest) hp with ⟨hl, ht⟩
      refine ⟨by simpa using hl, ?_⟩
      simp only [List.take_zero, List.nil_append, Nat.zero_add]
      have htd := List.take_append_drop pat.length (c :: rest)
      rw [ht] at htd
      exact htd
    · rw [if_neg hp] at h
      rcases Option.map_eq_some'.1 h with ⟨i', hi', rfl⟩
      rcases ih i' hi' with ⟨hl, hsp⟩
      constructor
      · simp only [List.length_cons]
        omega
      · rw [show i' + 1 + pat.length = (i' + pat.length) + 1 by omega]
        simp only [List.take_succ_cons, List.drop_succ_cons, List.cons_append]
        rw [hsp]

/-- Arithmetic of the early-return RAG trim: keeping
`max(100, (rag_tokens - overflow) * 3)` characters of the RAG block plus
the 15-character marker overshoots the budget by at most 45 tokens. -/
lemma stage1_trim_bound (B ov0 : Int) (sys pre ragc rest : Str)
    (msgs : List V12.PMsg)
    (hsyslen : sys.length
      = pre.length + V12.ragMarker.length + ragc.length + rest.length)
    (hov : 0 < ov0)
    (htot : (V12.estimate_tokens sys + V12.estimate_messages_tokens msgs : Int)
      = B + ov0)
    (hrt : ov0 < (V12.estimate_tokens ragc : Int)) :
    (V12.estimate_tokens (pre ++ V12.ragMarker
        ++ ragc.take (max 100 (((V12.estimate_tokens ragc : Int) - ov0) * 3)).toNat
        ++ V12.ragTrimMark ++ rest)
      + V12.estimate_messages_tokens msgs : Int) ≤ B + 45 := by
  have hM : V12.ragMarker.length = 36 := by decide
  have hT : V12.ragTrimMark.length = 15 := by decide
  rw [hM] at hsyslen
  have hest2 : (2 : Int) ≤ V12.estimate_tokens ragc := by omega
  have hle := est_le ragc
  have hR3 : 3 ≤ ragc.length := by omega
  have hrteq : V12.estimate_tokens ragc = ragc.length / 3 := est_eq_of_ge3 _ hR3
  have hsys3 : V12.estimate_tokens sys = sys.length / 3 :=
    est_eq_of_ge3 _ (by omega)
  rw [hsys3] at htot
  have ht100 : (100 : Int) ≤ max 100 (((V12.estimate_tokens ragc : Int) - ov0) * 3) :=
    le_max_left _ _
  have htn : (((max 100 (((V12.estimate_tokens ragc : Int) - ov0) * 3)).toNat : Int))
      = max 100 (((V12.estimate_tokens ragc : Int) - ov0) * 3) :=
    Int.toNat_of_nonneg (by omega)
  have hnew : (pre ++ V12.ragMarker
      ++ ragc.take (max 100 (((V12.estimate_tokens ragc : Int) - ov0) * 3)).toNat
      ++ V12.ragTrimMark ++ rest).length
      = pre.length + 36
        + min (max 100 (((V12.estimate_tokens ragc : Int) - ov0) * 3)).toNat ragc.length
        + 15 + rest.length := by
    simp only [List.length_append, List.length_take, hM, hT]
  have hestnew : V12.estimate_tokens (pre ++ V12.ragMarker
      ++ ragc.take (max 100 (((V12.estimate_tokens ragc : Int) - ov0) * 3)).toNat
      ++ V12.ragTrimMark ++ rest)
      = (pre.length + 36
        + min (max 100 (((V12.estimate_tokens ragc : Int) - ov0) * 3)).toNat ragc.length
        + 15 + rest.length) / 3 := by
    rw [est_eq_of_ge3 _ (by rw [hnew]; omega), hnew]
  rw [hestnew]
  rcases max_cases (100 : Int) (((V12.estimate_tokens ragc : Int) - ov0) * 3) with
    ⟨hmax, hmax2⟩ | ⟨hmax, hmax2⟩
  · rcases Nat.le_total
        (max 100 (((V12.estimate_tokens ragc : Int) - ov0) * 3)).toNat ragc.length with
      hmin | hmin
    · rw [Nat.min_eq_left hmin]
      omega
    · rw [Nat.min_eq_right hmin]
      omega
  · rcases Nat.le_total
        (max 100 (((V12.estimate_tokens ragc : Int) - ov0) * 3)).toNat ragc.length with
      hmin | hmin
    · rw [Nat.min_eq_left hmin]
      omega
    · rw [Nat.min_eq_right hmin]
      omega

/-- Arithmetic of the remove-RAG-entirely step: replacing the RAG block by
the 11-character stub keeps the running total within 6 tokens of the
account the code keeps in `overflow`. -/
lemma stage1_cut_bound (B ov0 : Int) (sys pre ragc rest : Str)
    (msgs : List V12.PMsg)
    (hsyslen : sys.length
      = pre.length + V12.ragMarker.length + ragc.length + rest.length)
    (hov : 0 < ov0)
    (htot : (V12.estimate_tokens sys + V12.estimate_messages_tokens msgs : Int)
      = B + ov0) :
    (V12.estimate_tokens (pre ++ V12.ragMarker ++ V12.ragCutMark ++ rest)
      + V12.estimate_messages_tokens msgs : Int)
      ≤ (B + 6) + (ov0 - (V12.estimate_tokens ragc : Int)) := by
  have hM : V12.ragMarker.length = 36 := by decide
  have hC : V12.ragCutMark.length = 11 := by decide
  rw [hM] at hsyslen
  have hsys3 : V12.estimate_tokens sys = sys.length / 3 :=
    est_eq_of_ge3 _ (by omega)
  rw [hsys3] at htot
  have hnew : (pre ++ V12.ragMarker ++ V12.ragCutMark ++ rest).length
      = pre.length + 36 + 11 + rest.length := by
    simp only [List.length_append, hM, hC]
  have hestnew : V12.estimate_tokens (pre ++ V12.ragMarker ++ V12.ragCutMark ++ rest)
      = (pre.length + 36 + 11 + rest.length) / 3 := by
    rw [est_eq_of_ge3 _ (by rw [hnew]; omega), hnew]
  rw [hestnew]
  have hgr := est_ge ragc
  have hlr := est_le ragc
  omega

/-- C3 amended: after `truncate_context_if_needed`, the returned pair's
estimated tokens exceed `context_window - min_response_tokens` by at most
45 tokens (slack produced by the inserted truncation markers and the
100-character RAG keep-floor, none of which the overflow accounting
covers), or else the returned system prompt has been cut to its floor:
at most 514 characters (the 500-character floor plus the 14-character
marker). -/
theorem C3_amended (sys : Str) (msgs : List V12.PMsg) (cw mr : Nat) :
    ((V12.estimate_tokens (V12.truncate_context_if_needed sys msgs cw mr).1
      + V12.estimate_messages_tokens (V12.truncate_context_if_needed sys msgs cw mr).2
        : Int)
      ≤ (cw : Int) - mr + 45)
    ∨ (V12.truncate_context_if_needed sys msgs cw mr).1.length ≤ 514 := by
  unfold V12.truncate_context_if_needed
  dsimp only
  by_cases h0 : (V12.estimate_tokens sys + V12.estimate_messages_tokens msgs : Int)
      ≤ (cw : Int) - (mr : Int)
  · rw [if_pos h0]
    left
    dsimp only
    omega
  · rw [if_neg h0]
    cases hfs : findSub V12.ragMarker sys with
    | none =>
      dsimp only
      have hb := stage23_bound ((cw : Int) - (mr : Int))
        ((V12.estimate_tokens sys + V12.estimate_messages_tokens msgs : Int)
          - ((cw : Int) - (mr : Int))) sys msgs (by omega)
      rcases hb with hb | hb
      · left
        omega
      · right
        exact hb
    | some i =>
      obtain ⟨hile, hsplit⟩ := findSub_spec _ _ _ hfs
      dsimp only
      cases hps : findSub V12.sectMark ((sys.drop (i + V12.ragMarker.length)).drop 1) with
      | some j =>
        dsimp only
        have hsyslen : sys.length = (sys.take i).length + V12.ragMarker.length
            + ((sys.drop (i + V12.ragMarker.length)).take (j + 1)).length
            + ((sys.drop (i + V12.ragMarker.length)).drop (j + 1)).length := by
          simp only [List.length_take, List.length_drop]
          omega
        by_cases hrt : ((V12.estimate_tokens sys + V12.estimate_messages_tokens msgs : Int)
            - ((cw : Int) - (mr : Int)))
            < (V12.estimate_tokens ((sys.drop (i + V12.ragMarker.length)).take (j + 1)) : Int)
        · rw [if_pos hrt]
          left
          exact stage1_trim_bound ((cw : Int) - (mr : Int))
            ((V12.estimate_tokens sys + V12.estimate_messages_tokens msgs : Int)
              - ((cw : Int) - (mr : Int)))
            sys (sys.take i) ((sys.drop (i + V12.ragMarker.length)).take (j + 1))
            ((sys.drop (i + V12.ragMarker.length)).drop (j + 1)) msgs
            hsyslen (by omega) (by omega) hrt
        · rw [if_neg hrt]
          have hcut := stage1_cut_bound ((cw : Int) - (mr : Int))
            ((V12.estimate_tokens sys + V12.estimate_messages_tokens msgs : Int)
              - ((cw : Int) - (mr : Int)))
            sys (sys.take i) ((sys.drop (i + V12.ragMarker.length)).take (j + 1))
            ((sys.drop (i + V12.ragMarker.length)).drop (j + 1)) msgs
            hsyslen (by omega) (by omega)
          have hb := stage23_bound (((cw : Int) - (mr : Int)) + 6)
            (((V12.estimate_tokens sys + V12.estimate_messages_tokens msgs : Int)
              - ((cw : Int) - (mr : Int)))
              - (V12.estimate_tokens ((sys.drop (i + V12.ragMarker.length)).take (j + 1)) : Int))
            (sys.take i ++ V12.ragMarker ++ V12.ragCutMark
              ++ (sys.drop (i + V12.ragMarker.length)).drop (j + 1)) msgs (by omega)
          rcases hb with hb | hb
          · left
            omega
          · right
            exact hb
      | none =>
        dsimp only
        have hsyslen : sys.length = (sys.take i).length + V12.ragMarker.length
            + (sys.drop (i + V12.ragMarker.length)).length + ([] : Str).length := by
          simp only [List.length_take, List.length_drop, List.length_nil]
          omega
        by_cases hrt : ((V12.estimate_tokens sys + V12.estimate_messages_tokens msgs : Int)
            - ((cw : Int) - (mr : Int)))
            < (V12.estimate_tokens (sys.drop (i + V12.ragMarker.length)) : Int)
        · rw [if_pos hrt]
          left
          exact stage1_trim_bound ((cw : Int) - (mr : Int))
            ((V12.estimate_tokens sys + V12.estimate_messages_tokens msgs : Int)
              - ((cw : Int) - (mr : Int)))
            sys (sys.take i) (sys.drop (i + V12.ragMarker.length)) [] msgs
            hsyslen (by omega) (by omega) hrt
        · rw [if_neg hrt]
          have hcut := stage1_cut_bound ((cw : Int) - (mr : Int))
            ((V12.estimate_tokens sys + V12.estimate_messages_tokens msgs : Int)
              - ((cw : Int) - (mr : Int)))
            sys (sys.take i) (sys.drop (i + V12.ragMarker.length)) [] msgs
            hsyslen (by omega) (by omega)
          have hb := stage23_bound (((cw : Int) - (mr : Int)) + 6)
            (((V12.estimate_tokens sys + V12.estimate_messages_tokens msgs : Int)
              - ((cw : Int) - (mr : Int)))
              - (V12.estimate_tokens (sys.drop (i + V12.ragMarker.length)) : Int))
            (sys.take i ++ V12.ragMarker ++ V12.ragCutMark ++ ([] : Str)) msgs (by omega)
          rcases hb with hb | hb
          · left
            omega
          · right
            exact hb

set_option maxRecDepth 200000 in
/-- C3 counterexample: a 600-character system prompt with no messages,
`context_window = 190`, `min_response_tokens = 0`.  The stage-3 tail cut
removes exactly `overflow * 3` characters but appends the 14-character
marker, so the returned pair estimates 194 tokens, above the budget of
190, while the returned prompt is 584 characters long — far from the
500(+14)-character floor. -/
theorem C3_counterexample :
    V12.estimate_tokens (V12.truncate_context_if_needed (List.replicate 600 'a') [] 190 0).1
      + V12.estimate_messages_tokens
          (V12.truncate_context_if_needed (List.replicate 600 'a') [] 190 0).2 = 194 ∧
    ¬ (V12.estimate_tokens (V12.truncate_context_if_needed (List.replicate 600 'a') [] 190 0).1
        + V12.estimate_messages_tokens
            (V12.truncate_context_if_needed (List.replicate 600 'a') [] 190 0).2
      ≤ 190 - 0) ∧
    (V12.truncate_context_if_needed (List.replicate 600 'a') [] 190 0).1.length = 584 ∧
    514 < (V12.truncate_context_if_needed (List.replicate 600 'a') [] 190 0).1.length := by
  decide
